import Mathlib

/-!
Verification of the module-file resolution core of `cargo-files`
(crates `cargo-files-core` / `cargo-files`).

Shallow embedding conventions:
* A filesystem path (`std::path::PathBuf`) is modelled as its list of
  normalized components (`Path := List String`).  Absolute and relative
  paths are not distinguished; components are assumed not to contain
  separators, and `"."` components do not occur (Rust normalizes them
  away).  A trailing `".."` component is kept, because Rust's
  `Path::file_name`/`file_stem` return `None` for such paths while
  `Path::parent` still succeeds.
* The filesystem is a parameter: an existence oracle (`Path::exists`)
  plus a read-and-parse oracle combining `fs::read_to_string` and
  `syn::parse_file` (the two failure modes are kept separate, matching
  the two error constructors in the source).
* `dunce::canonicalize` is a parameter `Canon : Path → Option Path`
  (`none` models a canonicalization failure).
* `io::Error` and `syn::Error` are modelled as strings (their message;
  neither carries a file path in the source).
* Rust panics (failed `assert!`/`expect`) are a distinguished result
  `RRes.panic`; nontermination of the recursive traversal is made
  observable with a fuel parameter, `RRes.diverge` meaning the fuel ran
  out.
-/

deriving instance DecidableEq for Except

namespace CargoFiles

/-- A filesystem path as its list of normalized components. -/
abbrev FPath : Type := List String

/-- Rust `Path::parent`: drop the final component; `None` for the empty
path (which also stands for a bare filesystem root, the other parentless
Rust path). -/
def parentDir (p : FPath) : Option FPath :=
  match p with
  | [] => none
  | _ :: _ => some ((p : List String).dropLast)

/-- Rust `Path::file_name`: the final component, unless the path is empty
or terminates in `..` (Rust returns `None` there). -/
def fileNameOf (p : FPath) : Option String :=
  match (p : List String).getLast? with
  | none => none
  | some s => if s = ".." then none else some s

/-- Split a list of characters on a separator character, keeping empty
pieces. -/
def splitOnCharAux (sep : Char) : List Char → List Char → List String
  | [], cur => [String.mk cur.reverse]
  | c :: cs, cur =>
    if c = sep then String.mk cur.reverse :: splitOnCharAux sep cs []
    else splitOnCharAux sep cs (c :: cur)

def splitOnChar (sep : Char) (s : String) : List String :=
  splitOnCharAux sep s.toList []

/-- Interpret a Rust path string as components: `PathBuf::push`/`join` of
a (relative) path string appends its `/`-separated components. -/
def splitPath (s : String) : List String :=
  (splitOnChar '/' s).filter (fun c => decide (c ≠ ""))

def joinWith (sep : String) : List String → String
  | [] => ""
  | [x] => x
  | x :: y :: xs => x ++ sep ++ joinWith sep (y :: xs)

/-- Rust `Path::file_stem` restricted to one normal component: the whole
name if it has no dot, or begins with its only dot; otherwise the part
before the last dot. -/
def stemOf (s : String) : String :=
  match splitOnChar '.' s with
  | [] => s
  | [_] => s
  | first :: rest =>
    if first = "" ∧ rest.length = 1 then s
    else joinWith "." ((first :: rest).dropLast)

/-- Rust `Path::file_stem` of a path: stem of its file name. -/
def fileStem (p : FPath) : Option String :=
  (fileNameOf p).map stemOf

/-- Rust `str::ends_with` (on the raw attribute string). -/
def strEndsWith (s suffix : String) : Bool :=
  suffix.toList.isSuffixOf s.toList

/-- Rust `Path::ends_with`: the components of `child` are a suffix of the
components of `p`. -/
def pathEndsWith (p : FPath) (child : String) : Bool :=
  (splitPath child).isSuffixOf (p : List String)

/-- The error enum of `cargo-files-core/src/lib.rs`.  Note which
constructors carry a path: `FileError` does, `ParseError` only carries
the `syn::Error` (modelled as its message string, which in the source
holds a message and a source-relative span, but no file path). -/
inductive Error where
  | ManifestNotCargoToml
  | NoTargets
  | ManifestError (e : String)
  | FileError (p : FPath) (e : String)
  | ParseError (e : String)
  | ModuleNotFound
  | NoParent
  | NoStem
deriving DecidableEq

/-- Result of running a piece of the Rust code: normal return, `Err`,
a panic (failed assertion), or fuel exhaustion of the model. -/
inductive RRes (α : Type) where
  | ok (a : α)
  | err (e : Error)
  | panic
  | diverge
deriving DecidableEq

/-- One component of a module declaration chain (`struct PathComponent`
in parser.rs): the declared name plus the optional `#[path = "..."]`
override. -/
structure PathComponent where
  name : String
  path : Option String
deriving DecidableEq

/-- A file-backed module declaration (`struct Module` in parser.rs). -/
structure Module where
  parts : List PathComponent
deriving DecidableEq

/-- parser.rs `resolve_base_resolution_path`: the directory child
declarations of `source_file_path` resolve in.  The file stem is
demanded first (`NoStem`), then the parent directory (`NoParent`); the
file is "mod.rs-like" if it is the target's root file or its stem is
`"mod"`, in which case the base is its parent directory, otherwise the
parent directory extended with the stem. -/
def resolveBaseResolutionPath (rootPath sourceFilePath : FPath) : Except Error FPath :=
  match fileStem sourceFilePath with
  | none => .error .NoStem
  | some baseName =>
    let isModRs : Bool := rootPath = sourceFilePath ∨ baseName = "mod"
    match parentDir sourceFilePath with
    | none => .error .NoParent
    | some dir =>
      .ok (if isModRs then dir else dir ++ [baseName])

/-- The loop over the non-final chain components in `Module::resolve`
(parser.rs lines 95-108).  `none` models the `assert!(!path.ends_with(".rs"))`
panic.  An override on the component at index 0 replaces the base with
the containing file's directory joined with the override; an override on
a later component is pushed onto the accumulated base; a component with
no override pushes its plain name. -/
def walkHead (sourceFileDirectory : FPath) : FPath → Nat → List PathComponent → Option FPath
  | base, _, [] => some base
  | base, i, c :: rest =>
    match c.path with
    | some p =>
      if strEndsWith p ".rs" then none
      else if i = 0 then walkHead sourceFileDirectory (sourceFileDirectory ++ splitPath p) (i + 1) rest
      else walkHead sourceFileDirectory (base ++ splitPath p) (i + 1) rest
    | none => walkHead sourceFileDirectory (base ++ [c.name]) (i + 1) rest

/-- The final-component block of `Module::resolve` (parser.rs lines
110-138): an override is anchored at the containing file's directory
when there were no parent components, else appended to the base, and
must exist; otherwise the flat candidate `base/<name>.rs` is tried, then
`base/<name>/mod.rs`, else `ModuleNotFound`. -/
def resolveFinal (ex : FPath → Bool) (sourceFileDirectory base : FPath)
    (headEmpty : Bool) (finalPart : PathComponent) : RRes FPath :=
  match finalPart.path with
  | some p =>
    let cand := if headEmpty then sourceFileDirectory ++ splitPath p else base ++ splitPath p
    if ex cand then .ok cand else .err .ModuleNotFound
  | none =>
    let flat := base ++ [finalPart.name ++ ".rs"]
    if ex flat then .ok flat
    else
      let marker := base ++ [finalPart.name, "mod.rs"]
      if ex marker then .ok marker else .err .ModuleNotFound

/-- parser.rs `Module::resolve`.  The `assert!(!self.parts.is_empty())`
together with the `split_last().unwrap()` is the `none` branch of
`getLast?`; the containing file's parent is demanded (`NoParent`), the
base directory computed, the non-final components walked (possible
assertion panic), and the final component resolved against the
filesystem existence oracle `ex`. -/
def Module.resolve (ex : FPath → Bool) (m : Module) (rootPath sourceFilePath : FPath) : RRes FPath :=
  match m.parts.getLast? with
  | none => .panic
  | some finalPart =>
    match parentDir sourceFilePath with
    | none => .err .NoParent
    | some sourceFileDirectory =>
      match resolveBaseResolutionPath rootPath sourceFilePath with
      | .error e => .err e
      | .ok base0 =>
        let head := m.parts.dropLast
        match walkHead sourceFileDirectory base0 0 head with
        | none => .panic
        | some base => resolveFinal ex sourceFileDirectory base head.isEmpty finalPart

/-- The subset of a `syn` attribute the visitor inspects: a name-value
meta (with the identifier of its path, if it is a single identifier, and
its value if that value is a string literal), or any other meta form. -/
inductive AttrMeta where
  | nameValue (ident : Option String) (strValue : Option String)
  | otherMeta

/-- The attribute loop of `ModVisitor::visit_item_mod` (parser.rs lines
17-38): the first `#[path = "..."]` name-value attribute with a string
literal value wins; every other attribute form is skipped. -/
def findPathAttr : List AttrMeta → Option String
  | [] => none
  | .otherMeta :: rest => findPathAttr rest
  | .nameValue ident strValue :: rest =>
    if ident = some "path" then
      match strValue with
      | some v => some v
      | none => findPathAttr rest
    else findPathAttr rest

/- A module item of the parsed syntax tree (`syn::ItemMod` as consumed
by the visitor): name, attributes, and an optional inline body.  The
visitor only ever looks at module items, so other item kinds are not
represented.  `ItemList` is a specialised list so that the mutual
recursion of the visitor is structural. -/
mutual
inductive Item where
  | mod (name : String) (attrs : List AttrMeta) (content : Option ItemList)
inductive ItemList where
  | nil
  | cons (i : Item) (rest : ItemList)
end

def ItemList.ofList : List Item → ItemList
  | [] => .nil
  | i :: is => .cons i (ItemList.ofList is)

/- `ModVisitor::visit_item_mod` (parser.rs lines 15-54), with the
mutable visitor state (`modules`, `stack`) made explicit: the component
for this item (name plus extracted path attribute) is pushed onto the
stack; if the item has no inline body a `Module` holding the stack
snapshot is emitted; the body, if any, is visited with the pushed stack;
the pop is implicit in returning.  `visitItemL` is the traversal of a
list of sibling items, emitted modules in source order. -/
mutual
def visitItem (stack : List PathComponent) : Item → List Module
  | .mod n attrs none => [Module.mk (stack ++ [⟨n, findPathAttr attrs⟩])]
  | .mod n attrs (some body) => visitItemL (stack ++ [⟨n, findPathAttr attrs⟩]) body
def visitItemL (stack : List PathComponent) : ItemList → List Module
  | .nil => []
  | .cons i rest => visitItem stack i ++ visitItemL stack rest
end

/-- Reading and parsing one source file (`fs::read_to_string` followed
by `syn::parse_file`): an I/O failure, a parse failure, or the module
items of the parsed tree. -/
inductive ReadRes where
  | ioErr (e : String)
  | parseErr (e : String)
  | ok (items : ItemList)

/-- The filesystem, as the two oracles the core consults: existence
(`Path::exists`) and read-and-parse. -/
structure Fs where
  ex : FPath → Bool
  read : FPath → ReadRes

/-- `dunce::canonicalize` as an abstract partial function; `none` is a
canonicalization failure. -/
abbrev Canon : Type := FPath → Option FPath

/-- `dunce::canonicalize(&p).unwrap_or(p)`: the canonical path when
canonicalization succeeds, silently the input path otherwise. -/
def canonOr (canon : Canon) (p : FPath) : FPath :=
  (canon p).getD p

/-- `HashSet::insert`, on a duplicate-free list: adds `p` unless present. -/
def insertP (l : List FPath) (p : FPath) : List FPath :=
  if p ∈ l then l else l ++ [p]

/-- State of one build: the accumulator set of `extract_crate_files`,
plus (instrumentation not present in the source) the chronological list
of paths handed to `fs::read_to_string`, used to observe which files get
read and parsed. -/
structure BuildSt where
  acc : List FPath
  log : List FPath
deriving DecidableEq

/-- The two positions of control inside `extract_crate_files`: about to
visit a file (the function body, parser.rs lines 163-174), or iterating
the extracted modules of `src` (the `for` loop, lines 176-181). -/
inductive Job where
  | file (path : FPath)
  | mods (src : FPath) (ms : List Module)

/-- parser.rs `extract_crate_files`, fuel-indexed (the source recursion
has no termination guard; `diverge` is returned when the fuel runs out).
Visiting a file inserts its path into the accumulator, reads and parses
it (`FileError`/`ParseError` on failure), and iterates the extracted
modules; each module is resolved, canonicalized best-effort, recursed
into unconditionally, and inserted after the recursive call returns. -/
def runJob (fs : Fs) (canon : Canon) : Nat → FPath → Job → BuildSt → RRes BuildSt
  | 0, _, _, _ => .diverge
  | fuel + 1, rootPath, .file path, st =>
    let st1 : BuildSt := ⟨insertP st.acc path, st.log ++ [path]⟩
    match fs.read path with
    | .ioErr e => .err (.FileError path e)
    | .parseErr e => .err (.ParseError e)
    | .ok items => runJob fs canon fuel rootPath (.mods path (visitItemL [] items)) st1
  | _ + 1, _, .mods _ [], st => .ok st
  | fuel + 1, rootPath, .mods src (m :: ms), st =>
    match Module.resolve fs.ex m rootPath src with
    | .ok modulePath =>
      let cp := canonOr canon modulePath
      match runJob fs canon fuel rootPath (.file cp) st with
      | .ok st2 => runJob fs canon fuel rootPath (.mods src ms) ⟨insertP st2.acc cp, st2.log⟩
      | r => r
    | .err e => .err e
    | .panic => .panic
    | .diverge => .diverge

def extractCrateFiles (fs : Fs) (canon : Canon) (fuel : Nat)
    (rootPath path : FPath) (st : BuildSt) : RRes BuildSt :=
  runJob fs canon fuel rootPath (.file path) st

/-- lib.rs `struct Target`; equality and ordering in the source use only
`path`, and `kind`/`edition` are plain metadata tags here. -/
structure Target where
  path : FPath
  kind : String
  edition : String
deriving DecidableEq

/-- lib.rs `get_target_files`: run the extractor from the target's entry
path with a fresh accumulator. -/
def getTargetFiles (fs : Fs) (canon : Canon) (fuel : Nat) (t : Target) : RRes (List FPath) :=
  match extractCrateFiles fs canon fuel t.path t.path ⟨[], []⟩ with
  | .ok st => .ok st.acc
  | .err e => .err e
  | .panic => .panic
  | .diverge => .diverge

/-- `cargo_metadata::Target`, restricted to what the source consumes:
the entry source path, the first kind tag (the source takes `kind[0]` of
a vector cargo guarantees nonempty), and the edition. -/
structure CmTarget where
  srcPath : FPath
  kind : String
  edition : String

/-- A `cargo_metadata` dependency record: name plus optional local
filesystem path. -/
structure Dependency where
  name : String
  depPath : Option FPath

/-- A `cargo_metadata` package record, restricted to what the source
consumes. -/
structure Package where
  targets : List CmTarget
  dependencies : List Dependency
  manifestPath : FPath

/-- `cargo_metadata::Metadata`, restricted to its package list. -/
structure Metadata where
  packages : List Package

/-- The external `get_cargo_metadata` call (lib.rs lines 153-171), as an
oracle from an optional manifest path to metadata or an I/O error. -/
abbrev MetadataOracle : Type := Option FPath → Except String Metadata

/-- lib.rs `Target::from_target`: canonicalize the source path
best-effort (`dunce::canonicalize(..).unwrap_or(path)`) and keep kind
and edition. -/
def Target.fromTarget (canon : Canon) (t : CmTarget) : Target :=
  ⟨canonOr canon t.srcPath, t.kind, t.edition⟩

/-- `BTreeSet<Target>::insert`: `Target` equality is by `path` only, and
inserting an already-present element leaves the set unchanged. -/
def insertTarget (ts : List Target) (t : Target) : List Target :=
  if ts.any (fun u => u.path = t.path) then ts else ts ++ [t]

/-- lib.rs `add_targets`. -/
def addTargets (canon : Canon) (ctargets : List CmTarget) (ts : List Target) : List Target :=
  ctargets.foldl (fun acc t => insertTarget acc (Target.fromTarget canon t)) ts

/-- The positions of control inside `get_targets_recursive` (lib.rs
lines 115-145): about to fetch metadata for a manifest, iterating the
package list, or iterating one package's dependency list (with the
remaining packages pending). -/
inductive TJob where
  | manifest (mp : Option FPath)
  | packages (ps : List Package) (meta : Metadata)
  | deps (ds : List Dependency) (meta : Metadata) (restPs : List Package)

/-- lib.rs `get_targets_recursive`, fuel-indexed, with the two `&mut`
sets (targets, visited dependency names) threaded as state.  Metadata
fetch failure is `ManifestError`; each package's targets are added; a
dependency with a local path, not yet visited, whose `Cargo.toml`
exists and is not one of the current metadata's own packages, is marked
visited and recursed into. -/
def targetsGo (md : MetadataOracle) (fsE : FPath → Bool) (canon : Canon) :
    Nat → TJob → List Target × List String → RRes (List Target × List String)
  | 0, _, _ => .diverge
  | fuel + 1, .manifest mp, s =>
    match md mp with
    | .error e => .err (.ManifestError e)
    | .ok meta => targetsGo md fsE canon fuel (.packages meta.packages meta) s
  | _ + 1, .packages [] _, s => .ok s
  | fuel + 1, .packages (p :: ps) meta, (ts, vis) =>
    targetsGo md fsE canon fuel (.deps p.dependencies meta ps) (addTargets canon p.targets ts, vis)
  | fuel + 1, .deps [] meta ps, s => targetsGo md fsE canon fuel (.packages ps meta) s
  | fuel + 1, .deps (dep :: ds) meta ps, (ts, vis) =>
    match dep.depPath with
    | none => targetsGo md fsE canon fuel (.deps ds meta ps) (ts, vis)
    | some dpath =>
      if vis.contains dep.name then targetsGo md fsE canon fuel (.deps ds meta ps) (ts, vis)
      else
        let manifestPath := dpath ++ ["Cargo.toml"]
        if fsE manifestPath && !(meta.packages.any (fun q => q.manifestPath = manifestPath)) then
          match targetsGo md fsE canon fuel (.manifest (some manifestPath)) (ts, dep.name :: vis) with
          | .ok s2 => targetsGo md fsE canon fuel (.deps ds meta ps) s2
          | r => r
        else targetsGo md fsE canon fuel (.deps ds meta ps) (ts, vis)

def getTargetsRecursive (md : MetadataOracle) (fsE : FPath → Bool) (canon : Canon)
    (fuel : Nat) (mp : Option FPath) (ts : List Target) (vis : List String) :
    RRes (List Target × List String) :=
  targetsGo md fsE canon fuel (.manifest mp) (ts, vis)

/-- lib.rs `_get_targets` (the leading underscore is not a legal Lean
name): run the recursive enumeration from empty sets and map an empty
outcome to `NoTargets`. -/
def getTargetsInner (md : MetadataOracle) (fsE : FPath → Bool) (canon : Canon)
    (fuel : Nat) (mp : Option FPath) : RRes (List Target) :=
  match getTargetsRecursive md fsE canon fuel mp [] [] with
  | .ok (ts, _) => if ts.isEmpty then .err .NoTargets else .ok ts
  | .err e => .err e
  | .panic => .panic
  | .diverge => .diverge

/-- lib.rs `get_targets`: a caller-supplied manifest path must satisfy
`Path::ends_with("Cargo.toml")` before anything else runs, else
`ManifestNotCargoToml`. -/
def getTargets (md : MetadataOracle) (fsE : FPath → Bool) (canon : Canon)
    (fuel : Nat) (manifestPath : Option FPath) : RRes (List Target) :=
  match manifestPath with
  | some mp =>
    if !(pathEndsWith mp "Cargo.toml") then .err .ManifestNotCargoToml
    else getTargetsInner md fsE canon fuel (some mp)
  | none => getTargetsInner md fsE canon fuel none

/- Whether every module declaration in a syntax tree is inline (has a
body), recursively; used to state the inline-modules claim. -/
mutual
def allInlineI : Item → Bool
  | .mod _ _ none => false
  | .mod _ _ (some body) => allInlineL body
def allInlineL : ItemList → Bool
  | .nil => true
  | .cons i rest => allInlineI i && allInlineL rest
end

/-! Concrete scenario inputs used by witnesses and counterexamples. -/

/-- A canonicalizer that always fails. -/
def canonNone : Canon := fun _ => none

/-- `src/lib.rs` declares `mod a;` and `#[path = "a.rs"] mod b;`: two
declarations resolving to the same physical file. -/
def itemsDup : ItemList :=
  .ofList [.mod "a" [] none, .mod "b" [.nameValue (some "path") (some "a.rs")] none]

def fsDup : Fs where
  ex := fun p => decide (p = ["src", "lib.rs"]) || decide (p = ["src", "a.rs"])
  read := fun p =>
    if p = ["src", "lib.rs"] then .ok itemsDup
    else if p = ["src", "a.rs"] then .ok .nil
    else .ioErr "no such file"

/-- `src/a.rs` declares `#[path = "a.rs"] mod m;`, which resolves back
to `src/a.rs` itself. -/
def itemsCycle : ItemList :=
  .ofList [.mod "m" [.nameValue (some "path") (some "a.rs")] none]

def fsCycle : Fs where
  ex := fun p => decide (p = ["src", "a.rs"])
  read := fun p => if p = ["src", "a.rs"] then .ok itemsCycle else .ioErr "no such file"

/-- The module declaration extracted from `itemsCycle`. -/
def cycleModule : Module := ⟨[⟨"m", some "a.rs"⟩]⟩

/-- Two distinct files whose content fails to parse identically, plus a
file whose read fails. -/
def fsParseFail : Fs where
  ex := fun _ => false
  read := fun p =>
    if p = ["one.rs"] then .parseErr "expected item"
    else if p = ["two.rs"] then .parseErr "expected item"
    else .ioErr "permission denied"

/-- `src/lib.rs` contains only inline modules: `mod x { mod y { } }`. -/
def itemsInline : ItemList :=
  .ofList [.mod "x" [] (some (.ofList [.mod "y" [] (some .nil)]))]

def fsInline : Fs where
  ex := fun p => decide (p = ["src", "lib.rs"])
  read := fun p => if p = ["src", "lib.rs"] then .ok itemsInline else .ioErr "no such file"

/-- `src/lib.rs` declares `mod a;` and `#[path = "b.rs"] mod bb;`, where
`src/b.rs` is a link to the same physical file as `src/a.rs`. -/
def itemsLink : ItemList :=
  .ofList [.mod "a" [] none, .mod "bb" [.nameValue (some "path") (some "b.rs")] none]

def fsLink : Fs where
  ex := fun p =>
    decide (p = ["src", "lib.rs"]) || decide (p = ["src", "a.rs"]) || decide (p = ["src", "b.rs"])
  read := fun p =>
    if p = ["src", "lib.rs"] then .ok itemsLink
    else if p = ["src", "a.rs"] then .ok .nil
    else if p = ["src", "b.rs"] then .ok .nil
    else .ioErr "no such file"

/-- A canonicalizer that succeeds everywhere and identifies `src/b.rs`
with `src/a.rs` (the link target). -/
def canonLink : Canon := fun p =>
  if p = ["src", "b.rs"] then some ["src", "a.rs"] else some p

/-- A metadata oracle reporting a workspace with no packages. -/
def mdEmpty : MetadataOracle := fun _ => .ok ⟨[]⟩

/-! Helper lemmas. -/

theorem mem_insertP_self (l : List FPath) (p : FPath) : p ∈ insertP l p := by
  unfold insertP
  split
  · assumption
  · simp

theorem mem_insertP_of_mem {l : List FPath} {q : FPath} (p : FPath) (h : q ∈ l) :
    q ∈ insertP l p := by
  unfold insertP
  split
  · exact h
  · simp [h]

/-- The accumulator only grows: anything in the accumulator before a
(successful) traversal step is still there afterwards. -/
theorem runJob_acc_mono (fs : Fs) (canon : Canon) :
    ∀ (fuel : Nat) (rootPath : FPath) (job : Job) (st st' : BuildSt),
      runJob fs canon fuel rootPath job st = .ok st' → ∀ q ∈ st.acc, q ∈ st'.acc := by
  intro fuel
  induction fuel with
  | zero =>
    intro rootPath job st st' h
    simp [runJob] at h
  | succ n ih =>
    intro rootPath job st st' h q hq
    match job with
    | .file path =>
      rw [runJob] at h
      cases hr : fs.read path with
      | ioErr e => rw [hr] at h; exact absurd h (by simp)
      | parseErr e => rw [hr] at h; exact absurd h (by simp)
      | ok items =>
        rw [hr] at h
        exact ih rootPath _ _ st' h q (mem_insertP_of_mem path hq)
    | .mods src [] =>
      rw [runJob] at h
      cases h
      exact hq
    | .mods src (m :: ms) =>
      rw [runJob] at h
      cases hres : Module.resolve fs.ex m rootPath src with
      | ok modulePath =>
        simp only [hres] at h
        cases hrec : runJob fs canon n rootPath (.file (canonOr canon modulePath)) st with
        | ok st2 =>
          simp only [hrec] at h
          have h2 : q ∈ st2.acc := ih rootPath _ _ _ hrec q hq
          exact ih rootPath _ _ _ h q (mem_insertP_of_mem _ h2)
        | err e => simp [hrec] at h
        | panic => simp [hrec] at h
        | diverge => simp [hrec] at h
      | err e => simp [hres] at h
      | panic => simp [hres] at h
      | diverge => simp [hres] at h

/-- Visiting a file puts that file's path into the final accumulator. -/
theorem runJob_file_mem (fs : Fs) (canon : Canon) (n : Nat) (rootPath path : FPath)
    (st st' : BuildSt) (h : runJob fs canon (n + 1) rootPath (.file path) st = .ok st') :
    path ∈ st'.acc := by
  rw [runJob] at h
  cases hr : fs.read path with
  | ioErr e => rw [hr] at h; exact absurd h (by simp)
  | parseErr e => rw [hr] at h; exact absurd h (by simp)
  | ok items =>
    rw [hr] at h
    exact runJob_acc_mono fs canon n rootPath _ _ st' h path (mem_insertP_self st.acc path)

/-- On `fsCycle` (a file whose declaration resolves back to itself) the
traversal never returns, whatever fuel it is given: the code recurses
into the resolved file without consulting the accumulator. -/
theorem cycle_step_diverges : ∀ (n : Nat),
    (∀ st, runJob fsCycle canonNone n ["src", "a.rs"] (.file ["src", "a.rs"]) st = .diverge) ∧
    (∀ st, runJob fsCycle canonNone n ["src", "a.rs"] (.mods ["src", "a.rs"] [cycleModule]) st = .diverge) := by
  intro n
  induction n with
  | zero => exact ⟨fun _ => rfl, fun _ => rfl⟩
  | succ n ih =>
    constructor
    · intro st
      have hstep : runJob fsCycle canonNone (n + 1) ["src", "a.rs"] (.file ["src", "a.rs"]) st =
          runJob fsCycle canonNone n ["src", "a.rs"] (.mods ["src", "a.rs"] [cycleModule])
            ⟨insertP st.acc ["src", "a.rs"], st.log ++ [["src", "a.rs"]]⟩ := rfl
      rw [hstep]
      exact ih.2 _
    · intro st
      have hres : Module.resolve fsCycle.ex cycleModule ["src", "a.rs"] ["src", "a.rs"] =
          .ok ["src", "a.rs"] := rfl
      rw [runJob]
      simp only [hres]
      have hc : canonOr canonNone ["src", "a.rs"] = ["src", "a.rs"] := rfl
      rw [hc, ih.1 st]

/-- C1: the claim says a resolved path already in the accumulator is
skipped.  It is not: the builder recurses unconditionally, so on a file
declaring `mod a;` and `#[path = "a.rs"] mod b;` the physical file
`src/a.rs` is read and parsed twice (the read log below records each
`fs::read_to_string` call, and `src/a.rs` occurs in it twice, not at
most once). -/
theorem C1_counterexample :
    extractCrateFiles fsDup canonNone 10 ["src", "lib.rs"] ["src", "lib.rs"] ⟨[], []⟩ =
      .ok ⟨[["src", "lib.rs"], ["src", "a.rs"]],
           [["src", "lib.rs"], ["src", "a.rs"], ["src", "a.rs"]]⟩ ∧
    ([["src", "lib.rs"], ["src", "a.rs"], ["src", "a.rs"]] : List FPath).count ["src", "a.rs"] = 2 :=
  ⟨by decide, by decide⟩

/-- C1 (amended): after a file-backed declaration is resolved and
canonicalized, the builder recurses into it unconditionally without
consulting the accumulator, re-reading and re-parsing a file once per
declaration reaching it; duplicates are collapsed only by set
insertion, and when resolution reaches a cycle the recursion does not
terminate for any amount of fuel. -/
theorem C1_amended :
    (∀ fuel : Nat,
      extractCrateFiles fsCycle canonNone fuel ["src", "a.rs"] ["src", "a.rs"] ⟨[], []⟩ = .diverge) ∧
    (∀ (l : List FPath) (p : FPath), p ∈ l → insertP l p = l) := by
  constructor
  · intro fuel
    exact (cycle_step_diverges fuel).1 _
  · intro l p h
    unfold insertP
    simp [h]

/-- C1 (witness): the amended statement at fuel 7 and at a concrete
one-element accumulator. -/
theorem C1_amended_witness :
    extractCrateFiles fsCycle canonNone 7 ["src", "a.rs"] ["src", "a.rs"] ⟨[], []⟩ = .diverge ∧
    insertP [["src", "a.rs"]] ["src", "a.rs"] = [["src", "a.rs"]] :=
  ⟨C1_amended.1 7, C1_amended.2 _ _ (by decide)⟩

/-- C8: whenever the build succeeds, the returned file set contains the
target's own entry path (it is inserted before the first read and the
accumulator only grows). -/
theorem C8_entry_in_result :
    ∀ (fs : Fs) (canon : Canon) (fuel : Nat) (t : Target) (files : List FPath),
      getTargetFiles fs canon fuel t = .ok files → t.path ∈ files := by
  intro fs canon fuel t files h
  unfold getTargetFiles extractCrateFiles at h
  match fuel with
  | 0 => simp [runJob] at h
  | n + 1 =>
    cases hrun : runJob fs canon (n + 1) t.path (.file t.path) ⟨[], []⟩ with
    | ok st =>
      simp only [hrun, RRes.ok.injEq] at h
      subst h
      exact runJob_file_mem fs canon n t.path t.path _ _ hrun
    | err e => simp [hrun] at h
    | panic => simp [hrun] at h
    | diverge => simp [hrun] at h

/-- C8 (witness): a successful concrete build whose result contains the
entry path. -/
theorem C8_witness :
    getTargetFiles fsDup canonNone 10 ⟨["src", "lib.rs"], "lib", "2021"⟩ =
      .ok [["src", "lib.rs"], ["src", "a.rs"]] ∧
    (["src", "lib.rs"] : FPath) ∈ [["src", "lib.rs"], ["src", "a.rs"]] :=
  ⟨by decide, C8_entry_in_result fsDup canonNone 10 ⟨["src", "lib.rs"], "lib", "2021"⟩ _ (by decide)⟩

/-- C2: the claim says a syntax failure yields a `ParseError` carrying
the offending path.  It does not: `ParseError` wraps only the parser's
own error value, so building two distinct files that fail to parse with
the same message produces literally identical errors — the error value
cannot determine the offending path. -/
theorem C2_counterexample :
    extractCrateFiles fsParseFail canonNone 2 ["one.rs"] ["one.rs"] ⟨[], []⟩ =
      .err (.ParseError "expected item") ∧
    extractCrateFiles fsParseFail canonNone 2 ["two.rs"] ["two.rs"] ⟨[], []⟩ =
      .err (.ParseError "expected item") ∧
    (["one.rs"] : FPath) ≠ ["two.rs"] :=
  ⟨by decide, by decide, by decide⟩

/-- C2 (amended): an I/O failure while reading a file yields `FileError`
carrying that file's path; a syntax failure yields `ParseError` carrying
only the underlying parser error (message and source-relative span), not
the path. -/
theorem C2_amended :
    ∀ (fs : Fs) (canon : Canon) (fuel : Nat) (rootPath path : FPath) (st : BuildSt),
      (∀ e, fs.read path = .ioErr e →
        extractCrateFiles fs canon (fuel + 1) rootPath path st = .err (.FileError path e)) ∧
      (∀ e, fs.read path = .parseErr e →
        extractCrateFiles fs canon (fuel + 1) rootPath path st = .err (.ParseError e)) := by
  intro fs canon fuel rootPath path st
  constructor
  · intro e h
    unfold extractCrateFiles
    rw [runJob, h]
  · intro e h
    unfold extractCrateFiles
    rw [runJob, h]

/-- C2 (witness): the amended statement at a concrete unreadable file
and a concrete unparseable file. -/
theorem C2_amended_witness :
    extractCrateFiles fsParseFail canonNone 1 ["locked.rs"] ["locked.rs"] ⟨[], []⟩ =
      .err (.FileError ["locked.rs"] "permission denied") ∧
    extractCrateFiles fsParseFail canonNone 1 ["one.rs"] ["one.rs"] ⟨[], []⟩ =
      .err (.ParseError "expected item") :=
  ⟨(C2_amended fsParseFail canonNone 0 ["locked.rs"] ["locked.rs"] ⟨[], []⟩).1 "permission denied" rfl,
   (C2_amended fsParseFail canonNone 0 ["one.rs"] ["one.rs"] ⟨[], []⟩).2 "expected item" rfl⟩

/-- C3: an override on the outermost chain component is resolved
relative to the containing file's directory and replaces the accumulated
base entirely (the result does not depend on the base directory
`base0`); an override on a later intermediate component is appended to
the accumulated base; and when the chain has a final component with an
override and no intermediate components, that override is anchored at
the containing file's directory in the same way. -/
theorem C3_outermost_override_anchoring :
    (∀ (ex : FPath → Bool) (rootPath src d : FPath) (c0 : PathComponent)
        (rest : List PathComponent) (fp : PathComponent) (p : String) (base0 : FPath),
      c0.path = some p → strEndsWith p ".rs" = false →
      parentDir src = some d → resolveBaseResolutionPath rootPath src = .ok base0 →
      Module.resolve ex ⟨(c0 :: rest) ++ [fp]⟩ rootPath src =
        (match walkHead d (d ++ splitPath p) 1 rest with
         | none => .panic
         | some base => resolveFinal ex d base false fp)) ∧
    (∀ (d base : FPath) (i : Nat) (c : PathComponent) (rest : List PathComponent) (p : String),
      i ≠ 0 → c.path = some p → strEndsWith p ".rs" = false →
      walkHead d base i (c :: rest) = walkHead d (base ++ splitPath p) (i + 1) rest) ∧
    (∀ (ex : FPath → Bool) (rootPath src d base0 : FPath) (fp : PathComponent) (p : String),
      fp.path = some p → parentDir src = some d →
      resolveBaseResolutionPath rootPath src = .ok base0 →
      Module.resolve ex ⟨[fp]⟩ rootPath src =
        (if ex (d ++ splitPath p) then .ok (d ++ splitPath p) else .err .ModuleNotFound)) := by
  refine ⟨?_, ?_, ?_⟩
  · intro ex rootPath src d c0 rest fp p base0 hc0 hrs hpd hbase
    simp only [Module.resolve, List.getLast?_concat, List.dropLast_concat, hpd, hbase]
    rw [walkHead]
    simp [hc0, hrs]
  · intro d base i c rest p hi hc hrs
    rw [walkHead]
    simp [hc, hrs, hi]
  · intro ex rootPath src d base0 fp p hfp hpd hbase
    simp only [Module.resolve, List.getLast?_singleton, hpd, hbase]
    simp only [List.dropLast_single, walkHead]
    simp [resolveFinal, hfp]

/-- C3 (witness): the three parts at concrete inputs, in particular a
depth-2 chain whose outermost component carries the override `"abc"`
inside a root file `src/lib.rs`, resolving to `src/abc/tls.rs`. -/
theorem C3_witness :
    (Module.resolve (fun q => decide (q = ["src", "abc", "tls.rs"]))
        ⟨[⟨"thread", some "abc"⟩] ++ [⟨"data", some "tls.rs"⟩]⟩ ["src", "lib.rs"] ["src", "lib.rs"] =
      (match walkHead ["src"] (["src"] ++ splitPath "abc") 1 [] with
       | none => .panic
       | some base =>
         resolveFinal (fun q => decide (q = ["src", "abc", "tls.rs"])) ["src"] base false
           ⟨"data", some "tls.rs"⟩)) ∧
    walkHead ["src"] ["src", "outer"] 1 [⟨"mid", some "dir"⟩] =
      walkHead ["src"] (["src", "outer"] ++ splitPath "dir") 2 [] ∧
    Module.resolve (fun q => decide (q = ["src", "custom.rs"])) ⟨[⟨"a", some "custom.rs"⟩]⟩
        ["src", "lib.rs"] ["src", "lib.rs"] =
      (if (fun q => decide (q = ["src", "custom.rs"])) (["src"] ++ splitPath "custom.rs")
       then .ok (["src"] ++ splitPath "custom.rs") else .err .ModuleNotFound) :=
  ⟨C3_outermost_override_anchoring.1 (fun q => decide (q = ["src", "abc", "tls.rs"]))
      ["src", "lib.rs"] ["src", "lib.rs"] ["src"] ⟨"thread", some "abc"⟩ []
      ⟨"data", some "tls.rs"⟩ "abc" ["src"] (by decide) (by decide) (by decide) (by decide),
   C3_outermost_override_anchoring.2.1 ["src"] ["src", "outer"] 1 ⟨"mid", some "dir"⟩ []
      "dir" (by decide) (by decide) (by decide),
   C3_outermost_override_anchoring.2.2 (fun q => decide (q = ["src", "custom.rs"]))
      ["src", "lib.rs"] ["src", "lib.rs"] ["src"] ["src"] ⟨"a", some "custom.rs"⟩
      "custom.rs" (by decide) (by decide) (by decide)⟩

/-- C5: final-component resolution tries a fixed candidate order, first
hit winning, entirely determined by the existence oracle: with an
override the single override-derived candidate decides the outcome (the
flat and directory-marker candidates are never consulted, whatever the
oracle says about them); with no override the flat candidate
`base/<name>.rs` is consulted first, then `base/<name>/mod.rs`, and
`ModuleNotFound` results when neither exists. -/
theorem C5_final_resolution_order :
    ∀ (ex : FPath → Bool) (rootPath src d base0 base : FPath)
      (head : List PathComponent) (fp : PathComponent),
      parentDir src = some d → resolveBaseResolutionPath rootPath src = .ok base0 →
      walkHead d base0 0 head = some base →
      (∀ p, fp.path = some p →
        Module.resolve ex ⟨head ++ [fp]⟩ rootPath src =
          (if ex (if head.isEmpty then d ++ splitPath p else base ++ splitPath p)
           then .ok (if head.isEmpty then d ++ splitPath p else base ++ splitPath p)
           else .err .ModuleNotFound)) ∧
      (fp.path = none →
        Module.resolve ex ⟨head ++ [fp]⟩ rootPath src =
          (if ex (base ++ [fp.name ++ ".rs"]) then .ok (base ++ [fp.name ++ ".rs"])
           else if ex (base ++ [fp.name, "mod.rs"]) then .ok (base ++ [fp.name, "mod.rs"])
           else .err .ModuleNotFound)) := by
  intro ex rootPath src d base0 base head fp hpd hbase hwalk
  constructor
  · intro p hfp
    simp only [Module.resolve, List.getLast?_concat, List.dropLast_concat, hpd, hbase, hwalk]
    simp [resolveFinal, hfp]
  · intro hfp
    simp only [Module.resolve, List.getLast?_concat, List.dropLast_concat, hpd, hbase, hwalk]
    simp [resolveFinal, hfp]

/-- C5 (witness): both branches at concrete inputs: an override whose
candidate is missing fails with `ModuleNotFound` although the flat
candidate exists, and a declaration with no override picks the existing
flat candidate. -/
theorem C5_witness :
    (Module.resolve (fun q => decide (q = ["src", "a.rs"])) ⟨[] ++ [⟨"a", some "missing.rs"⟩]⟩
        ["src", "lib.rs"] ["src", "lib.rs"] =
      (if (fun q => decide (q = ["src", "a.rs"]))
            (if ([] : List PathComponent).isEmpty then ["src"] ++ splitPath "missing.rs"
             else ["src"] ++ splitPath "missing.rs")
       then .ok (if ([] : List PathComponent).isEmpty then ["src"] ++ splitPath "missing.rs"
                 else ["src"] ++ splitPath "missing.rs")
       else .err .ModuleNotFound)) ∧
    (Module.resolve (fun q => decide (q = ["src", "a.rs"])) ⟨[] ++ [⟨"a", none⟩]⟩
        ["src", "lib.rs"] ["src", "lib.rs"] =
      (if (fun q => decide (q = ["src", "a.rs"])) (["src"] ++ ["a" ++ ".rs"])
       then .ok (["src"] ++ ["a" ++ ".rs"])
       else if (fun q => decide (q = ["src", "a.rs"])) (["src"] ++ ["a", "mod.rs"])
       then .ok (["src"] ++ ["a", "mod.rs"])
       else .err .ModuleNotFound)) :=
  ⟨(C5_final_resolution_order (fun q => decide (q = ["src", "a.rs"])) ["src", "lib.rs"]
      ["src", "lib.rs"] ["src"] ["src"] ["src"] [] ⟨"a", some "missing.rs"⟩
      (by decide) (by decide) (by decide)).1 "missing.rs" (by decide),
   (C5_final_resolution_order (fun q => decide (q = ["src", "a.rs"])) ["src", "lib.rs"]
      ["src", "lib.rs"] ["src"] ["src"] ["src"] [] ⟨"a", none⟩
      (by decide) (by decide) (by decide)).2 (by decide)⟩

/-- Whenever some non-final component carries an override ending in
`".rs"`, the component walk hits the failed assertion. -/
theorem walkHead_panics :
    ∀ (d : FPath) (head : List PathComponent) (b : FPath) (i : Nat),
      (∃ c ∈ head, ∃ q, c.path = some q ∧ strEndsWith q ".rs" = true) →
      walkHead d b i head = none := by
  intro d head
  induction head with
  | nil =>
    intro b i h
    simp at h
  | cons c rest ih =>
    intro b i h
    rcases h with ⟨c', hc', q, hq, hrs⟩
    rcases List.mem_cons.mp hc' with hceq | hmem
    · subst hceq
      rw [walkHead]
      simp [hq, hrs]
    · cases hc : c.path with
      | none =>
        rw [walkHead]
        simp only [hc]
        exact ih _ _ ⟨c', hmem, q, hq, hrs⟩
      | some p =>
        rw [walkHead]
        simp only [hc]
        by_cases hp : strEndsWith p ".rs" = true
        · simp [hp]
        · simp only [hp, Bool.false_eq_true, if_false]
          split
          · exact ih _ _ ⟨c', hmem, q, hq, hrs⟩
          · exact ih _ _ ⟨c', hmem, q, hq, hrs⟩

/-- C6: resolve panics instead of erroring whenever (the containing path
being well-formed enough to reach the walk) some non-final chain
component carries an override path ending in `".rs"`: the
`assert!(!path.ends_with(".rs"))` fails and no `Error` value is
produced. -/
theorem C6_intermediate_rs_override_panics :
    ∀ (ex : FPath → Bool) (rootPath src d base0 : FPath) (m : Module),
      parentDir src = some d → resolveBaseResolutionPath rootPath src = .ok base0 →
      (∃ c ∈ m.parts.dropLast, ∃ q, c.path = some q ∧ strEndsWith q ".rs" = true) →
      Module.resolve ex m rootPath src = .panic := by
  intro ex rootPath src d base0 m hpd hbase hwit
  have hne : m.parts ≠ [] := by
    intro hnil
    rcases hwit with ⟨c, hc, _⟩
    rw [hnil] at hc
    simp at hc
  obtain ⟨fp, hfp⟩ : ∃ fp, m.parts.getLast? = some fp := by
    cases hlast : m.parts.getLast? with
    | none => exact absurd (List.getLast?_eq_none_iff.mp hlast) hne
    | some fp => exact ⟨fp, rfl⟩
  simp only [Module.resolve, hfp, hpd, hbase]
  rw [walkHead_panics d m.parts.dropLast base0 0 hwit]

/-- C6 (witness): an inline parent annotated `#[path = "y.rs"]` with a
file-backed child makes resolve panic at a concrete input. -/
theorem C6_witness :
    Module.resolve (fun _ => true) ⟨[⟨"x", some "y.rs"⟩, ⟨"z", none⟩]⟩
      ["src", "lib.rs"] ["src", "lib.rs"] = .panic :=
  C6_intermediate_rs_override_panics (fun _ => true) ["src", "lib.rs"] ["src", "lib.rs"]
    ["src"] ["src"] ⟨[⟨"x", some "y.rs"⟩, ⟨"z", none⟩]⟩ (by decide) (by decide)
    ⟨⟨"x", some "y.rs"⟩, by decide, "y.rs", by decide, by decide⟩

/-- C4: the claim says a containing path with no parent fails with
`NoParent`.  It does not: the stem is demanded first, and a parentless
path (the empty path, standing for a bare root) has no file name and
hence no stem, so `resolve_base_resolution_path` fails with `NoStem`. -/
theorem C4_counterexample :
    parentDir ([] : FPath) = none ∧
    resolveBaseResolutionPath ["src", "lib.rs"] ([] : FPath) = .error .NoStem ∧
    (Except.error Error.NoStem : Except Error FPath) ≠ .error .NoParent :=
  ⟨rfl, by decide, by decide⟩

/-- C4 (amended): for every containing file with a parent directory and
a file stem, the base resolution directory is the file's own parent
exactly when the file is a marker file (the target's root entry file, or
stem `"mod"`), and `parent/stem` otherwise; the stem check precedes the
parent check, so every containing path with no stem — including every
path with no parent, which necessarily has no file name — fails with
`NoStem` (only a path with a stem but no parent would fail with
`NoParent`, and no such path exists). -/
theorem C4_amended :
    ∀ (rootPath src : FPath),
      (∀ (st : String) (d : FPath), fileStem src = some st → parentDir src = some d →
        resolveBaseResolutionPath rootPath src =
          .ok (if rootPath = src ∨ st = "mod" then d else d ++ [st])) ∧
      (fileStem src = none → resolveBaseResolutionPath rootPath src = .error .NoStem) := by
  intro rootPath src
  constructor
  · intro st d hst hd
    simp only [resolveBaseResolutionPath, hst, hd]
    by_cases h : rootPath = src ∨ st = "mod"
    · simp [h]
    · simp [h]
  · intro hst
    simp only [resolveBaseResolutionPath, hst]

/-- C4 (witness): the amended statement at a `mod.rs` marker file and at
a stemless path ending in `..`. -/
theorem C4_amended_witness :
    resolveBaseResolutionPath ["src", "lib.rs"] ["src", "test", "mod.rs"] =
      .ok (if (["src", "lib.rs"] : FPath) = ["src", "test", "mod.rs"] ∨ "mod" = "mod"
           then ["src", "test"] else ["src", "test"] ++ ["mod"]) ∧
    resolveBaseResolutionPath ["src", "lib.rs"] ["a", ".."] = .error .NoStem :=
  ⟨(C4_amended ["src", "lib.rs"] ["src", "test", "mod.rs"]).1 "mod" ["src", "test"]
      (by decide) (by decide),
   (C4_amended ["src", "lib.rs"] ["a", ".."]).2 (by decide)⟩

/-- A syntax tree all of whose module declarations are inline emits no
module records at all. -/
theorem visitItemL_all_inline_empty :
    ∀ (stack : List PathComponent) (l : ItemList),
      allInlineL l = true → visitItemL stack l = [] := by
  intro stack l
  refine visitItemL.induct
    (fun stack i => allInlineI i = true → visitItem stack i = [])
    (fun stack l => allInlineL l = true → visitItemL stack l = []) ?_ ?_ ?_ ?_ stack l
  · intro stack n attrs h
    simp [allInlineI] at h
  · intro stack n attrs body ih h
    simp only [allInlineI] at h
    simp only [visitItem]
    exact ih h
  · intro stack h
    rfl
  · intro stack i rest ih1 ih2 h
    simp only [allInlineL, Bool.and_eq_true] at h
    simp only [visitItemL, ih1 h.1, ih2 h.2, List.nil_append]

/-- Every module record emitted while visiting with stack `stack` has
`stack` as a prefix of its component chain. -/
theorem visitItemL_stack_prefix :
    ∀ (stack : List PathComponent) (l : ItemList) (m : Module),
      m ∈ visitItemL stack l → ∃ t, m.parts = stack ++ t := by
  intro stack l
  refine visitItemL.induct
    (fun stack i => ∀ m, m ∈ visitItem stack i → ∃ t, m.parts = stack ++ t)
    (fun stack l => ∀ m, m ∈ visitItemL stack l → ∃ t, m.parts = stack ++ t) ?_ ?_ ?_ ?_ stack l
  · intro stack n attrs m hm
    simp only [visitItem, List.mem_singleton] at hm
    exact ⟨[⟨n, findPathAttr attrs⟩], by rw [hm]⟩
  · intro stack n attrs body ih m hm
    simp only [visitItem] at hm
    obtain ⟨t, ht⟩ := ih m hm
    exact ⟨⟨n, findPathAttr attrs⟩ :: t, by rw [ht, List.append_assoc]; rfl⟩
  · intro stack m hm
    simp [visitItemL] at hm
  · intro stack i rest ih1 ih2 m hm
    simp only [visitItemL, List.mem_append] at hm
    cases hm with
    | inl h => exact ih1 m h
    | inr h => exact ih2 m h

/-- C7: an inline module declaration is never emitted as a file-backed
declaration, but its component (name plus extracted path attribute) is
pushed for its body, so every declaration emitted from inside the body
carries the full chain through the inline parent; a tree consisting only
of inline modules emits nothing; and an entry file whose declarations
are all inline, with no file-backed children, builds to exactly the
entry file. -/
theorem C7_inline_modules :
    (∀ (stack : List PathComponent) (name : String) (attrs : List AttrMeta) (body : ItemList),
      visitItem stack (.mod name attrs (some body)) =
        visitItemL (stack ++ [⟨name, findPathAttr attrs⟩]) body) ∧
    (∀ (stack : List PathComponent) (name : String) (attrs : List AttrMeta) (body : ItemList)
        (m : Module), m ∈ visitItem stack (.mod name attrs (some body)) →
      ∃ t, m.parts = (stack ++ [⟨name, findPathAttr attrs⟩]) ++ t) ∧
    (∀ (stack : List PathComponent) (l : ItemList),
      allInlineL l = true → visitItemL stack l = []) ∧
    extractCrateFiles fsInline canonNone 10 ["src", "lib.rs"] ["src", "lib.rs"] ⟨[], []⟩ =
      .ok ⟨[["src", "lib.rs"]], [["src", "lib.rs"]]⟩ := by
  refine ⟨?_, ?_, visitItemL_all_inline_empty, by decide⟩
  · intro stack name attrs body
    rfl
  · intro stack name attrs body m hm
    simp only [visitItem] at hm
    exact visitItemL_stack_prefix _ body m hm

/-- C7 (witness): the hypothesis-bearing parts at a concrete inline tree
`mod x { mod y; }` and at the all-inline tree `mod x { mod y { } }`. -/
theorem C7_witness :
    (∃ t, (⟨[⟨"x", none⟩, ⟨"y", none⟩]⟩ : Module).parts = ([] ++ [⟨"x", none⟩]) ++ t) ∧
    visitItemL [] itemsInline = [] :=
  ⟨C7_inline_modules.2.1 [] "x" [] (.ofList [.mod "y" [] none]) ⟨[⟨"x", none⟩, ⟨"y", none⟩]⟩
      (by decide),
   C7_inline_modules.2.2.1 [] itemsInline (by decide)⟩

/-- C9: a caller-supplied manifest path whose components do not end with
`Cargo.toml` is rejected with `ManifestNotCargoToml` before the metadata
oracle or the filesystem is ever consulted (the result is this error for
every oracle); and when enumeration completes with an empty target set
the result is `NoTargets`. -/
theorem C9_get_targets_errors :
    (∀ (md : MetadataOracle) (fsE : FPath → Bool) (canon : Canon) (fuel : Nat) (mp : FPath),
      pathEndsWith mp "Cargo.toml" = false →
      getTargets md fsE canon fuel (some mp) = .err .ManifestNotCargoToml) ∧
    (∀ (md : MetadataOracle) (fsE : FPath → Bool) (canon : Canon) (fuel : Nat)
        (mp : Option FPath) (ts : List Target) (vis : List String),
      getTargetsRecursive md fsE canon fuel mp [] [] = .ok (ts, vis) → ts = [] →
      getTargetsInner md fsE canon fuel mp = .err .NoTargets) := by
  constructor
  · intro md fsE canon fuel mp h
    simp [getTargets, h]
  · intro md fsE canon fuel mp ts vis h hts
    subst hts
    unfold getTargetsInner
    rw [h]
    rfl

/-- C9 (witness): a manifest path not ending in `Cargo.toml`, and a
metadata oracle reporting no packages. -/
theorem C9_witness :
    getTargets mdEmpty (fun _ => false) canonNone 3 (some ["foo.toml"]) =
      .err .ManifestNotCargoToml ∧
    getTargetsInner mdEmpty (fun _ => false) canonNone 3 none = .err .NoTargets :=
  ⟨C9_get_targets_errors.1 mdEmpty (fun _ => false) canonNone 3 ["foo.toml"] (by decide),
   C9_get_targets_errors.2 mdEmpty (fun _ => false) canonNone 3 none [] [] rfl rfl⟩

/-- C10: canonicalization is best-effort: when it fails, the
non-canonicalized path is silently used as the identity key (both for
resolved module paths and for a target's entry path); on a filesystem
where `src/b.rs` links to the same physical file as `src/a.rs`, a
succeeding canonicalizer collapses the two declarations to a single
entry, while a failing one leaves two distinct keys for the same
physical file. -/
theorem C10_canonicalization_best_effort :
    (∀ (canon : Canon) (p : FPath), canon p = none → canonOr canon p = p) ∧
    (∀ (canon : Canon) (t : CmTarget), canon t.srcPath = none →
      (Target.fromTarget canon t).path = t.srcPath) ∧
    extractCrateFiles fsLink canonLink 10 ["src", "lib.rs"] ["src", "lib.rs"] ⟨[], []⟩ =
      .ok ⟨[["src", "lib.rs"], ["src", "a.rs"]],
           [["src", "lib.rs"], ["src", "a.rs"], ["src", "a.rs"]]⟩ ∧
    extractCrateFiles fsLink canonNone 10 ["src", "lib.rs"] ["src", "lib.rs"] ⟨[], []⟩ =
      .ok ⟨[["src", "lib.rs"], ["src", "a.rs"], ["src", "b.rs"]],
           [["src", "lib.rs"], ["src", "a.rs"], ["src", "b.rs"]]⟩ := by
  refine ⟨?_, ?_, by decide, by decide⟩
  · intro canon p h
    simp [canonOr, h]
  · intro canon t h
    simp [Target.fromTarget, canonOr, h]

/-- C10 (witness): the hypothesis-bearing parts at the always-failing
canonicalizer. -/
theorem C10_witness :
    canonOr canonNone ["x.rs"] = ["x.rs"] ∧
    (Target.fromTarget canonNone ⟨["x.rs"], "lib", "2021"⟩).path = ["x.rs"] :=
  ⟨C10_canonicalization_best_effort.1 canonNone ["x.rs"] rfl,
   C10_canonicalization_best_effort.2.1 canonNone ⟨["x.rs"], "lib", "2021"⟩ rfl⟩

end CargoFiles
